import Mathlib

/-!
Verification of the inventory-management core of this repository
(`src/index.tsx`, `src/hooks/useLocalStorage.ts`, `src/types.ts`).

The React state updates are embedded as explicit state passing over an
`AppState` record holding the three `useLocalStorage`-backed collections.
Fresh UUIDs (`crypto.randomUUID()`) and current timestamps
(`new Date().toISOString()`) are nondeterministic environment inputs; they
appear as explicit `String` parameters of each operation.
-/

namespace Inventory

/-- The `User` record of `src/types.ts`. -/
structure User where
  id : String
  fullName : String
  email : String
  createdAt : String
deriving DecidableEq

/-- The `Product` record of `src/types.ts`; the decimal `price` is modelled
as a rational number, the integer `quantity` as an `Int`. -/
structure Product where
  id : String
  sku : String
  name : String
  price : Rat
  quantity : Int
  lastUpdated : String
deriving DecidableEq

/-- The `TransactionType` union of `src/types.ts`. -/
inductive TransactionType where
  | initial
  | increase
  | decrease
deriving DecidableEq

/-- The `Transaction` record of `src/types.ts`. -/
structure Transaction where
  id : String
  productId : String
  sku : String
  productName : String
  type : TransactionType
  amount : Int
  timestamp : String
deriving DecidableEq

/-- The three persistent state cells of the `App` component in
`src/index.tsx` (`users`, `products`, `transactions`). -/
structure AppState where
  users : List User
  products : List Product
  transactions : List Transaction
deriving DecidableEq

/-- The initial state: each `useLocalStorage` cell defaults to `[]`. -/
def AppState.empty : AppState := ⟨[], [], []⟩

/-- Function `addTransaction` from `src/index.tsx`: builds a `Transaction` from the
given product snapshot, with `amount := Math.abs(amount)`, and prepends it
to the ledger (`setTransactions((prev) => [newTransaction, ...prev])`).
The fresh UUID `txId` and the timestamp are environment parameters. -/
def addTransaction (txId timestamp : String) (product : Product)
    (ty : TransactionType) (amount : Int)
    (prev : List Transaction) : List Transaction :=
  { id := txId, productId := product.id, sku := product.sku,
    productName := product.name, type := ty, amount := abs amount,
    timestamp := timestamp } :: prev

/-- Function `handleRegisterUser` from `src/index.tsx`: appends a fresh `User` to the
end of the users table (`setUsers((prev) => [...prev, newUser])`). -/
def handleRegisterUser (newId now fullName email : String)
    (s : AppState) : AppState :=
  { s with users :=
      s.users ++ [{ id := newId, fullName := fullName, email := email,
                    createdAt := now }] }

/-- Function `handleRegisterProduct` from `src/index.tsx`: appends a fresh `Product`
to the end of the products table and records an `initial` transaction for it
via `addTransaction(newProduct, "initial", quantity)`. -/
def handleRegisterProduct (pid txId now sku name : String) (price : Rat)
    (quantity : Int) (s : AppState) : AppState :=
  let newProduct : Product :=
    { id := pid, sku := sku, name := name, price := price,
      quantity := quantity, lastUpdated := now }
  { s with
    products := s.products ++ [newProduct],
    transactions :=
      addTransaction txId now newProduct TransactionType.initial quantity
        s.transactions }

/-- The body of `handleAdjustStock` from `src/index.tsx`: the
`prevProducts.map((p) => ...)` traversal, with the `addTransaction` side
effect on the ledger threaded explicitly.  For each product whose `id`
matches, `newQuantity = p.quantity + amount` is computed; if it is negative
the product is returned unchanged and no transaction is recorded, otherwise
the updated product (new `quantity`, new `lastUpdated`) replaces it and a
transaction of type `increase` (when `amount > 0`) or `decrease` (otherwise)
is prepended to the ledger. -/
def adjustStockAux (productId : String) (amount : Int) (txId now : String) :
    List Product → List Transaction → List Product × List Transaction
  | [], txs => ([], txs)
  | p :: ps, txs =>
    if p.id = productId then
      if p.quantity + amount < 0 then
        let r := adjustStockAux productId amount txId now ps txs
        (p :: r.1, r.2)
      else
        let updatedProduct : Product :=
          { p with quantity := p.quantity + amount, lastUpdated := now }
        let r := adjustStockAux productId amount txId now ps
          (addTransaction txId now updatedProduct
            (if amount > 0 then TransactionType.increase
             else TransactionType.decrease) amount txs)
        (updatedProduct :: r.1, r.2)
    else
      let r := adjustStockAux productId amount txId now ps txs
      (p :: r.1, r.2)

/-- Function `handleAdjustStock` from `src/index.tsx`, acting on the whole state. -/
def handleAdjustStock (txId now productId : String) (amount : Int)
    (s : AppState) : AppState :=
  let r := adjustStockAux productId amount txId now s.products s.transactions
  { s with products := r.1, transactions := r.2 }

/-- A character matched by the regex class `\S` (not whitespace). -/
def isNonWs (c : Char) : Bool := !c.isWhitespace

/-- Matcher for `\S+` followed by a continuation `p`: consumes one or more
non-whitespace characters, trying every split point (the backtracking
semantics of the regex engine). -/
def plusThen (p : List Char → Bool) : List Char → Bool
  | [] => false
  | c :: rest => isNonWs c && (p rest || plusThen p rest)

/-- Matcher for the suffix `\.\S+$` of the email regex. -/
def dotPart : List Char → Bool
  | c :: rest => c = '.' && (!rest.isEmpty && rest.all isNonWs)
  | [] => false

/-- Matcher for the suffix `@\S+\.\S+$` of the email regex. -/
def atPart : List Char → Bool
  | c :: rest => c = '@' && plusThen dotPart rest
  | [] => false

/-- The email test `/^\S+@\S+\.\S+$/.test(email)` in
`UserRegistrationForm.handleSubmit` of `src/index.tsx`. -/
def emailOk (email : String) : Bool :=
  plusThen atPart email.data

/-- Handler `UserRegistrationForm.handleSubmit` of `src/index.tsx`: requires both
fields non-empty (JS truthiness on strings), then the email regex, and only
then calls `onRegisterUser`; on failure it sets an error message and leaves
the tables alone.  Returns the new state together with the error string. -/
def handleUserFormSubmit (newId now fullName email : String)
    (s : AppState) : AppState × String :=
  if fullName = "" || email = "" then (s, "Both fields are required.")
  else if !emailOk email then (s, "Please enter a valid email address.")
  else (handleRegisterUser newId now fullName email s, "")

/-- Constant `ITEMS_PER_PAGE` from the `TransactionHistory` component. -/
def ITEMS_PER_PAGE : Nat := 10

/-- Value `totalPages = Math.ceil(transactions.length / ITEMS_PER_PAGE)` from
`TransactionHistory`, as ceiling division on naturals. -/
def totalPages (txs : List Transaction) : Nat :=
  (txs.length + ITEMS_PER_PAGE - 1) / ITEMS_PER_PAGE

/-- Value `currentTransactions` from `TransactionHistory`:
`transactions.slice((currentPage - 1) * ITEMS_PER_PAGE, startIndex + ITEMS_PER_PAGE)`. -/
def currentTransactions (txs : List Transaction) (currentPage : Nat) :
    List Transaction :=
  List.take ITEMS_PER_PAGE (List.drop ((currentPage - 1) * ITEMS_PER_PAGE) txs)

/-- Handler `handleNextPage` from `TransactionHistory`:
`setCurrentPage((prev) => Math.min(prev + 1, totalPages))`. -/
def handleNextPage (totalP : Nat) (prev : Nat) : Nat := min (prev + 1) totalP

/-- Handler `handlePrevPage` from `TransactionHistory`:
`setCurrentPage((prev) => Math.max(prev - 1, 1))`. -/
def handlePrevPage (prev : Nat) : Nat := max (prev - 1) 1

/-- The page numbers reachable in `TransactionHistory` for a fixed ledger:
`currentPage` starts at `1`; the pagination controls are rendered only when
`totalPages > 1`, the Next button is disabled at `currentPage === totalPages`
and the Previous button at `currentPage === 1`. -/
inductive ReachablePage (txs : List Transaction) : Nat → Prop where
  | start : ReachablePage txs 1
  | next (p : Nat) : ReachablePage txs p → 1 < totalPages txs →
      p ≠ totalPages txs →
      ReachablePage txs (handleNextPage (totalPages txs) p)
  | back (p : Nat) : ReachablePage txs p → 1 < totalPages txs → p ≠ 1 →
      ReachablePage txs (handlePrevPage p)

/-- Untyped JSON-like values, the codomain of `JSON.parse`. -/
inductive JsValue where
  | null
  | bool (b : Bool)
  | num (n : Int)
  | str (s : String)
  | arr (elems : List JsValue)
  | obj (fields : List (String × JsValue))

/-- The lazy initializer of `useLocalStorage` in
`src/hooks/useLocalStorage.ts`: reads `window.localStorage.getItem(key)`
(`item : Option String`, `none` when no data is stored under the key), and
returns `item ? JSON.parse(item) : initialValue`, with any exception thrown
by `JSON.parse` caught and replaced by `initialValue`.  `parseJson` stands
for `JSON.parse`: it returns `none` exactly when parsing throws.  Note the
JS truthiness test also sends the empty string to the default. -/
def loadStoredValue (parseJson : String → Option JsValue)
    (item : Option String) (initialValue : JsValue) : JsValue :=
  match item with
  | none => initialValue
  | some it =>
    if it = "" then initialValue
    else
      match parseJson it with
      | some v => v
      | none => initialValue

/-- One `handleAdjustStock` call together with the fresh UUID and timestamp
the environment supplies to it. -/
structure AdjustCall where
  txId : String
  now : String
  productId : String
  amount : Int
deriving DecidableEq

/-- Apply one `AdjustCall` to the state. -/
def applyAdjust (c : AdjustCall) (s : AppState) : AppState :=
  handleAdjustStock c.txId c.now c.productId c.amount s

/-- Run a sequence of `handleAdjustStock` calls from left to right. -/
def runAdjusts (cs : List AdjustCall) (s : AppState) : AppState :=
  cs.foldl (fun s c => applyAdjust c s) s

/-- A stock adjustment is accepted when some product in the table carries the
target id and the adjusted quantity stays non-negative (with unique product
ids this is exactly the guard `newQuantity < 0` not firing). -/
def stockAccepted (productId : String) (amount : Int)
    (products : List Product) : Bool :=
  products.any fun p => decide (p.id = productId ∧ 0 ≤ p.quantity + amount)

/-- Number of the calls in `cs`, executed from state `s`, that target product
`pid` and are accepted. -/
def acceptedCountFor (pid : String) : AppState → List AdjustCall → Nat
  | _, [] => 0
  | s, c :: cs =>
    (if c.productId = pid ∧ stockAccepted c.productId c.amount s.products
     then 1 else 0) + acceptedCountFor pid (applyAdjust c s) cs

/-- Number of ledger entries of type `increase` or `decrease` that reference
product `pid`. -/
def countAdjustTx (pid : String) (txs : List Transaction) : Nat :=
  txs.countP fun tx =>
    decide (tx.productId = pid ∧
      (tx.type = TransactionType.increase ∨
       tx.type = TransactionType.decrease))

/-- Signed contribution of one ledger entry to the reconstructed quantity of
product `pid`: `initial` and `increase` amounts count positively, `decrease`
amounts negatively, entries for other products not at all. -/
def txContribution (pid : String) (tx : Transaction) : Int :=
  if tx.productId = pid then
    match tx.type with
    | TransactionType.initial => tx.amount
    | TransactionType.increase => tx.amount
    | TransactionType.decrease => -tx.amount
  else 0

/-- Quantity of product `pid` as reconstructed from the ledger. -/
def balanceOf (pid : String) (txs : List Transaction) : Int :=
  (txs.map (txContribution pid)).sum

/-- One operation of the core command interface, with the environment-chosen
fresh UUIDs and timestamps recorded in the operation. -/
inductive Op where
  | registerUser (newId now fullName email : String)
  | registerProduct (pid txId now sku name : String) (price : Rat)
      (quantity : Int)
  | adjustStock (txId now productId : String) (amount : Int)

/-- Apply one operation to the state. -/
def applyOp (s : AppState) : Op → AppState
  | Op.registerUser a b c d => handleRegisterUser a b c d s
  | Op.registerProduct a b c d e pr q => handleRegisterProduct a b c d e pr q s
  | Op.adjustStock a b c d => handleAdjustStock a b c d s

/-- Run a sequence of operations from left to right. -/
def runOps (ops : List Op) (s : AppState) : AppState :=
  ops.foldl applyOp s

/-- An operation is valid in state `s` when it satisfies the contract under
which the UI invokes it: `registerProduct` is called with a non-negative
initial quantity (the form validation) and a fresh UUID (collision-free
`crypto.randomUUID()`); the other operations are unconstrained. -/
def validOp (s : AppState) : Op → Bool
  | Op.registerProduct pid _ _ _ _ _ q =>
      decide (0 ≤ q) && decide (pid ∉ s.products.map Product.id)
  | _ => true

/-- Validity of a whole operation sequence, threaded through the states. -/
def validOps : AppState → List Op → Bool
  | _, [] => true
  | s, op :: ops => validOp s op && validOps (applyOp s op) ops

/-- Invariant tying the product table to the ledger: product ids are
pairwise distinct, every ledger entry references a present product id, and
every product has a non-negative quantity equal to its ledger balance. -/
def LedgerInv (s : AppState) : Prop :=
  (s.products.map Product.id).Nodup ∧
  (∀ tx ∈ s.transactions, tx.productId ∈ s.products.map Product.id) ∧
  (∀ p ∈ s.products, 0 ≤ p.quantity ∧
    p.quantity = balanceOf p.id s.transactions)

/-- Modelled from the spec's words (for comparison with the code's regex):
the email has at least one non-whitespace run before `@` and one after,
containing a `.`. -/
def SpecEmailPattern (email : String) : Prop :=
  ∃ a rest, email.data = a ++ '@' :: rest ∧ a ≠ [] ∧ a.all isNonWs = true ∧
    rest ≠ [] ∧ rest.all isNonWs = true ∧ '.' ∈ rest

/-- A stand-in for `JSON.parse` at one concrete input: `JSON.parse("0")`
succeeds (no exception) and evaluates to the number `0`; every other text is
treated as throwing. -/
def parseZeroOnly : String → Option JsValue :=
  fun s => if s = "0" then some (JsValue.num 0) else none

/-- Concrete product used by the witnesses. -/
def sampleProduct : Product :=
  { id := "p1", sku := "A1", name := "Widget", price := 10, quantity := 5,
    lastUpdated := "2024-01-01T00:00:00.000Z" }

/-- Concrete state used by the witnesses. -/
def sampleState : AppState := ⟨[], [sampleProduct], []⟩

/-- Concrete transaction used by the pagination witness. -/
def sampleTx : Transaction :=
  { id := "t0", productId := "p1", sku := "A1", productName := "Widget",
    type := TransactionType.initial, amount := 3,
    timestamp := "2024-01-01T00:00:00.000Z" }

/-- Concrete adjustment calls used by the stock-invariant witness:
an accepted increase by 2 and a rejected decrease by 10. -/
def sampleCalls : List AdjustCall :=
  [⟨"t1", "2024-01-02T00:00:00.000Z", "p1", 2⟩,
   ⟨"t2", "2024-01-03T00:00:00.000Z", "p1", -10⟩]

/-- Concrete operation sequence used by the reconstruction witness:
register a product with initial quantity 3, adjust by +2 (accepted), then
by -10 (rejected). -/
def sampleOps : List Op :=
  [Op.registerProduct "p1" "t1" "now1" "A1" "Widget" 10 3,
   Op.adjustStock "t2" "now2" "p1" 2,
   Op.adjustStock "t3" "now3" "p1" (-10)]

/-- The product the reconstruction witness expects after `sampleOps`. -/
def sampleOpsProduct : Product :=
  { id := "p1", sku := "A1", name := "Widget", price := 10, quantity := 5,
    lastUpdated := "now2" }

/-! ### Helper lemmas about the stock-adjustment traversal -/

theorem adjustStockAux_unchanged (pid : String) (d : Int) (t n : String)
    (ps : List Product) (txs : List Transaction)
    (h : ∀ p ∈ ps, p.id = pid → p.quantity + d < 0) :
    adjustStockAux pid d t n ps txs = (ps, txs) := by
  induction ps with
  | nil => rfl
  | cons p ps ih =>
    have hrest : ∀ q ∈ ps, q.id = pid → q.quantity + d < 0 :=
      fun q hq => h q (List.mem_cons_of_mem _ hq)
    by_cases hid : p.id = pid
    · have hneg := h p (List.mem_cons_self _ _) hid
      simp only [adjustStockAux, if_pos hid, if_pos hneg, ih hrest]
    · simp only [adjustStockAux, if_neg hid, ih hrest]

theorem adjustStockAux_accepted (pid : String) (d : Int) (t n : String)
    (l1 l2 : List Product) (p : Product) (txs : List Transaction)
    (h1 : ∀ q ∈ l1, q.id ≠ pid) (hp : p.id = pid) (hq : 0 ≤ p.quantity + d)
    (h2 : ∀ q ∈ l2, q.id ≠ pid) :
    adjustStockAux pid d t n (l1 ++ p :: l2) txs =
      (l1 ++ { p with quantity := p.quantity + d, lastUpdated := n } :: l2,
       addTransaction t n
         { p with quantity := p.quantity + d, lastUpdated := n }
         (if d > 0 then TransactionType.increase else TransactionType.decrease)
         d txs) := by
  induction l1 with
  | nil =>
    have hng : ¬ p.quantity + d < 0 := not_lt.mpr hq
    have hl2 : ∀ q ∈ l2, q.id = pid → q.quantity + d < 0 :=
      fun q hq2 hqe => absurd hqe (h2 q hq2)
    simp only [List.nil_append, adjustStockAux, if_pos hp, if_neg hng,
      adjustStockAux_unchanged pid d t n l2 _ hl2]
  | cons a l1 ih =>
    have ha : a.id ≠ pid := h1 a (List.mem_cons_self _ _)
    have h1' : ∀ q ∈ l1, q.id ≠ pid :=
      fun q hq1 => h1 q (List.mem_cons_of_mem _ hq1)
    simp only [List.cons_append, adjustStockAux, List.append_eq, if_neg ha,
      ih h1']

theorem adjustStockAux_forall2 (pid : String) (d : Int) (t n : String)
    (ps : List Product) (txs : List Transaction) :
    List.Forall₂
      (fun p q => q.id = p.id ∧ q.sku = p.sku ∧ q.name = p.name ∧
        q.price = p.price ∧ (p.id ≠ pid → q = p) ∧
        (0 ≤ p.quantity → 0 ≤ q.quantity))
      ps (adjustStockAux pid d t n ps txs).1 := by
  induction ps generalizing txs with
  | nil => exact List.Forall₂.nil
  | cons p ps ih =>
    by_cases hid : p.id = pid
    · by_cases hneg : p.quantity + d < 0
      · simp only [adjustStockAux, if_pos hid, if_pos hneg]
        exact List.Forall₂.cons
          ⟨rfl, rfl, rfl, rfl, fun _ => rfl, fun h => h⟩ (ih txs)
      · simp only [adjustStockAux, if_pos hid, if_neg hneg]
        exact List.Forall₂.cons
          ⟨rfl, rfl, rfl, rfl, fun hc => absurd hid hc,
           fun _ => not_lt.mp hneg⟩ (ih _)
    · simp only [adjustStockAux, if_neg hid]
      exact List.Forall₂.cons
        ⟨rfl, rfl, rfl, rfl, fun _ => rfl, fun h => h⟩ (ih txs)

theorem adjustStockAux_map_id (pid : String) (d : Int) (t n : String)
    (ps : List Product) (txs : List Transaction) :
    (adjustStockAux pid d t n ps txs).1.map Product.id =
      ps.map Product.id := by
  induction ps generalizing txs with
  | nil => rfl
  | cons p ps ih =>
    by_cases hid : p.id = pid
    · by_cases hneg : p.quantity + d < 0
      · simp only [adjustStockAux, if_pos hid, if_pos hneg, List.map_cons, ih]
      · simp only [adjustStockAux, if_pos hid, if_neg hneg, List.map_cons, ih]
    · simp only [adjustStockAux, if_neg hid, List.map_cons, ih]

theorem handleAdjustStock_unchanged (t n pid : String) (d : Int)
    (s : AppState)
    (h : ∀ p ∈ s.products, p.id = pid → p.quantity + d < 0) :
    handleAdjustStock t n pid d s = s := by
  simp only [handleAdjustStock,
    adjustStockAux_unchanged pid d t n s.products s.transactions h]

theorem handleAdjustStock_cases (t n pid : String) (d : Int) (s : AppState)
    (hnd : (s.products.map Product.id).Nodup) :
    (stockAccepted pid d s.products = false ∧
      handleAdjustStock t n pid d s = s) ∨
    (stockAccepted pid d s.products = true ∧
      ∃ l1 p l2, s.products = l1 ++ p :: l2 ∧ p.id = pid ∧
        0 ≤ p.quantity + d ∧
        (∀ q ∈ l1, q.id ≠ pid) ∧ (∀ q ∈ l2, q.id ≠ pid) ∧
        handleAdjustStock t n pid d s =
          { s with
            products :=
              l1 ++ { p with quantity := p.quantity + d, lastUpdated := n }
                :: l2,
            transactions := addTransaction t n
              { p with quantity := p.quantity + d, lastUpdated := n }
              (if d > 0 then TransactionType.increase
               else TransactionType.decrease) d s.transactions }) := by
  by_cases hacc : stockAccepted pid d s.products = true
  · right
    refine ⟨hacc, ?_⟩
    obtain ⟨p, hp, hcond⟩ := List.any_eq_true.mp hacc
    obtain ⟨hid, hq⟩ := of_decide_eq_true hcond
    obtain ⟨l1, l2, hsplit⟩ := List.append_of_mem hp
    have hnd' := hnd
    rw [hsplit, List.map_append, List.map_cons] at hnd'
    obtain ⟨nd1, nd2, disj⟩ := List.nodup_append.mp hnd'
    have h1 : ∀ q ∈ l1, q.id ≠ pid := by
      intro q hq1 hqe
      exact disj (List.mem_map_of_mem Product.id hq1)
        (by rw [hqe, ← hid]; exact List.mem_cons_self _ _)
    have h2 : ∀ q ∈ l2, q.id ≠ pid := by
      intro q hq2 hqe
      have hnotin := (List.nodup_cons.mp nd2).1
      have hmem : q.id ∈ List.map Product.id l2 :=
        List.mem_map_of_mem Product.id hq2
      rw [hqe, ← hid] at hmem
      exact hnotin hmem
    refine ⟨l1, p, l2, hsplit, hid, hq, h1, h2, ?_⟩
    simp only [handleAdjustStock, hsplit,
      adjustStockAux_accepted pid d t n l1 l2 p s.transactions h1 hid hq h2]
  · left
    refine ⟨eq_false_of_ne_true hacc, ?_⟩
    apply handleAdjustStock_unchanged
    intro p hp hid
    by_contra hge
    exact hacc (List.any_eq_true.mpr
      ⟨p, hp, decide_eq_true ⟨hid, not_lt.mp hge⟩⟩)

/-! ### Helper lemmas about the email matcher, pagination and the ledger -/

theorem plusThen_exists (p : List Char → Bool) (cs : List Char)
    (h : plusThen p cs = true) :
    ∃ a rest, cs = a ++ rest ∧ a ≠ [] ∧ a.all isNonWs = true ∧
      p rest = true := by
  induction cs with
  | nil => simp [plusThen] at h
  | cons c cs ih =>
    simp only [plusThen, Bool.and_eq_true, Bool.or_eq_true] at h
    obtain ⟨hc, hrest | hrec⟩ := h
    · exact ⟨[c], cs, rfl, by simp, by simp [hc], hrest⟩
    · obtain ⟨a, rest, heq, hne, hall, hp⟩ := ih hrec
      exact ⟨c :: a, rest, by simp [heq], by simp, by simp [hc, hall], hp⟩

theorem emailOk_spec_pattern (email : String) (h : emailOk email = true) :
    SpecEmailPattern email := by
  unfold emailOk at h
  obtain ⟨a, rest, heq, hane, haall, hat⟩ := plusThen_exists _ _ h
  cases rest with
  | nil => simp [atPart] at hat
  | cons c r2 =>
    simp only [atPart, Bool.and_eq_true, decide_eq_true_eq] at hat
    obtain ⟨hc, hrest⟩ := hat
    obtain ⟨b, r3, heq2, hbne, hball, hdot⟩ := plusThen_exists _ _ hrest
    cases r3 with
    | nil => simp [dotPart] at hdot
    | cons c2 r4 =>
      simp only [dotPart, Bool.and_eq_true, decide_eq_true_eq] at hdot
      obtain ⟨hc2, hne4, hall4⟩ := hdot
      refine ⟨a, b ++ '.' :: r4, ?_, hane, haall, ?_, ?_, ?_⟩
      · rw [heq, hc, heq2, hc2]
      · simp
      · simp only [List.all_append, List.all_cons, Bool.and_eq_true]
        refine ⟨hball, by decide, ?_⟩
        simpa using hall4
      · exact List.mem_append_right b (List.mem_cons_self '.' r4)

theorem reachablePage_bounds (txs : List Transaction) (p : Nat)
    (h : ReachablePage txs p) : 1 ≤ p ∧ p ≤ max 1 (totalPages txs) := by
  induction h with
  | start => exact ⟨le_refl 1, le_max_left 1 _⟩
  | next q hq htp hne ih =>
    refine ⟨le_min (by omega) (le_of_lt htp), ?_⟩
    exact le_trans (min_le_right _ _) (le_max_right 1 _)
  | back q hq htp hne ih =>
    refine ⟨le_max_right _ 1, ?_⟩
    exact max_le (le_trans (Nat.sub_le q 1) ih.2)
      (le_trans (le_of_lt htp) (le_max_right 1 _))

theorem balanceOf_cons (pid : String) (tx : Transaction)
    (txs : List Transaction) :
    balanceOf pid (tx :: txs) = txContribution pid tx + balanceOf pid txs := by
  simp [balanceOf]

theorem balanceOf_zero (pid : String) (txs : List Transaction)
    (h : ∀ tx ∈ txs, tx.productId ≠ pid) : balanceOf pid txs = 0 := by
  induction txs with
  | nil => rfl
  | cons tx txs ih =>
    rw [balanceOf_cons]
    have h0 : txContribution pid tx = 0 := by
      simp [txContribution, h tx (List.mem_cons_self _ _)]
    rw [h0, zero_add]
    exact ih fun tx2 h2 => h tx2 (List.mem_cons_of_mem _ h2)

theorem ledgerInv_registerUser (a b c d : String) (s : AppState)
    (h : LedgerInv s) : LedgerInv (handleRegisterUser a b c d s) := h

theorem ledgerInv_registerProduct (pid txId now sku name : String)
    (price : Rat) (q : Int) (s : AppState) (h : LedgerInv s)
    (hq : 0 ≤ q) (hfresh : pid ∉ s.products.map Product.id) :
    LedgerInv (handleRegisterProduct pid txId now sku name price q s) := by
  obtain ⟨hnd, href, hbal⟩ := h
  have hprodeq : (handleRegisterProduct pid txId now sku name price q
      s).products = s.products ++
        [{ id := pid, sku := sku, name := name, price := price,
           quantity := q, lastUpdated := now }] := rfl
  refine ⟨?_, ?_, ?_⟩
  · rw [hprodeq, List.map_append, List.nodup_append]
    refine ⟨hnd, List.nodup_singleton _, fun x hx hx2 => ?_⟩
    rw [List.map_singleton, List.mem_singleton] at hx2
    subst hx2
    exact hfresh hx
  · intro tx htx
    simp only [handleRegisterProduct, addTransaction, List.mem_cons] at htx
    rw [hprodeq, List.map_append, List.map_singleton]
    rcases htx with rfl | htx
    · exact List.mem_append_right _ (List.mem_singleton.mpr rfl)
    · exact List.mem_append_left _ (href tx htx)
  · intro p hp
    rw [hprodeq] at hp
    rw [List.mem_append, List.mem_singleton] at hp
    rcases hp with hp | rfl
    · have hbp := hbal p hp
      have hne : p.id ≠ pid :=
        fun he => hfresh (he ▸ List.mem_map_of_mem Product.id hp)
      have hne' : pid ≠ p.id := fun he => hne he.symm
      refine ⟨hbp.1, ?_⟩
      show p.quantity = balanceOf p.id (addTransaction txId now _
        TransactionType.initial q s.transactions)
      rw [addTransaction, balanceOf_cons]
      have h0 : txContribution p.id
          { id := txId, productId := pid, sku := sku, productName := name,
            type := TransactionType.initial, amount := abs q,
            timestamp := now } = 0 := by
        simp [txContribution, hne']
      rw [h0, zero_add]
      exact hbp.2
    · refine ⟨hq, ?_⟩
      show q = balanceOf pid (addTransaction txId now _
        TransactionType.initial q s.transactions)
      rw [addTransaction, balanceOf_cons]
      have hz : balanceOf pid s.transactions = 0 :=
        balanceOf_zero _ _ (fun tx htx he => hfresh (he ▸ href tx htx))
      rw [hz, add_zero]
      simp [txContribution, abs_of_nonneg hq]

theorem ledgerInv_adjust (t n pid : String) (d : Int) (s : AppState)
    (h : LedgerInv s) : LedgerInv (handleAdjustStock t n pid d s) := by
  obtain ⟨hnd, href, hbal⟩ := h
  rcases handleAdjustStock_cases t n pid d s hnd with
    ⟨-, heq⟩ | ⟨-, l1, p, l2, hsplit, hid, hq0, h1, h2, heq⟩
  · rw [heq]; exact ⟨hnd, href, hbal⟩
  · have hps : (handleAdjustStock t n pid d s).products =
        l1 ++ { p with quantity := p.quantity + d, lastUpdated := n } :: l2 :=
      by rw [heq]
    have hts : (handleAdjustStock t n pid d s).transactions =
        addTransaction t n
          { p with quantity := p.quantity + d, lastUpdated := n }
          (if d > 0 then TransactionType.increase
           else TransactionType.decrease) d s.transactions := by rw [heq]
    have hmap : (l1 ++ { p with quantity := p.quantity + d, lastUpdated := n }
        :: l2).map Product.id = s.products.map Product.id := by
      rw [hsplit]; simp
    have hpmem : p ∈ s.products := by
      rw [hsplit]; exact List.mem_append_right _ (List.mem_cons_self _ _)
    have hcontrib : ∀ x : String, x ≠ p.id →
        txContribution x
          { id := t, productId := p.id, sku := p.sku, productName := p.name,
            type := (if d > 0 then TransactionType.increase
                     else TransactionType.decrease),
            amount := abs d, timestamp := n } = 0 := by
      intro x hx
      have hx' : p.id ≠ x := fun he => hx he.symm
      simp [txContribution, hx']
    have hcontribSelf : txContribution p.id
        { id := t, productId := p.id, sku := p.sku, productName := p.name,
          type := (if d > 0 then TransactionType.increase
                   else TransactionType.decrease),
          amount := abs d, timestamp := n } = d := by
      by_cases hd : d > 0
      · simp only [txContribution, if_pos hd, if_pos rfl]
        exact abs_of_pos hd
      · simp only [txContribution, if_neg hd, if_pos rfl]
        rw [abs_of_nonpos (not_lt.mp hd), neg_neg]
        simp
    refine ⟨?_, ?_, ?_⟩
    · rw [hps, hmap]; exact hnd
    · intro tx htx
      rw [hts, addTransaction, List.mem_cons] at htx
      rw [hps, hmap]
      rcases htx with rfl | htx
      · exact List.mem_map_of_mem Product.id hpmem
      · exact href tx htx
    · intro x hx
      rw [hps] at hx
      rw [hts, addTransaction, balanceOf_cons]
      rcases List.mem_append.mp hx with hx1 | hx12
      · have hxs : x ∈ s.products := by
          rw [hsplit]; exact List.mem_append_left _ hx1
        have hbx := hbal x hxs
        have hxne : x.id ≠ p.id := fun he => h1 x hx1 (he.trans hid)
        exact ⟨hbx.1, by rw [hcontrib x.id hxne, zero_add]; exact hbx.2⟩
      · rcases List.mem_cons.mp hx12 with rfl | hx2
        · refine ⟨hq0, ?_⟩
          show p.quantity + d =
            txContribution p.id
              { id := t, productId := p.id, sku := p.sku,
                productName := p.name,
                type := (if d > 0 then TransactionType.increase
                         else TransactionType.decrease),
                amount := abs d, timestamp := n } +
              balanceOf p.id s.transactions
          rw [hcontribSelf, ← (hbal p hpmem).2]
          ring
        · have hxs : x ∈ s.products := by
            rw [hsplit]
            exact List.mem_append_right _ (List.mem_cons_of_mem _ hx2)
          have hbx := hbal x hxs
          have hxne : x.id ≠ p.id := fun he => h2 x hx2 (he.trans hid)
          exact ⟨hbx.1, by rw [hcontrib x.id hxne, zero_add]; exact hbx.2⟩

theorem ledgerInv_validOps (ops : List Op) (s : AppState)
    (h : LedgerInv s) (hv : validOps s ops = true) :
    LedgerInv (runOps ops s) := by
  induction ops generalizing s with
  | nil => exact h
  | cons op ops ih =>
    simp only [validOps, Bool.and_eq_true] at hv
    obtain ⟨hv1, hv2⟩ := hv
    have hstep : LedgerInv (applyOp s op) := by
      cases op with
      | registerUser a b c d => exact ledgerInv_registerUser a b c d s h
      | registerProduct a b c d e pr q =>
        simp only [validOp, Bool.and_eq_true, decide_eq_true_eq] at hv1
        exact ledgerInv_registerProduct a b c d e pr q s h hv1.1 hv1.2
      | adjustStock a b c d => exact ledgerInv_adjust a b c d s h
    have : runOps (op :: ops) s = runOps ops (applyOp s op) := rfl
    rw [this]
    exact ih (applyOp s op) hstep hv2

theorem applyAdjust_facts (c : AdjustCall) (s : AppState) (pid : String)
    (hnd : (s.products.map Product.id).Nodup)
    (hnn : ∀ p ∈ s.products, 0 ≤ p.quantity) :
    (applyAdjust c s).products.map Product.id = s.products.map Product.id ∧
    (∀ p ∈ (applyAdjust c s).products, 0 ≤ p.quantity) ∧
    countAdjustTx pid (applyAdjust c s).transactions =
      countAdjustTx pid s.transactions +
      (if c.productId = pid ∧
          stockAccepted c.productId c.amount s.products = true
       then 1 else 0) := by
  rcases handleAdjustStock_cases c.txId c.now c.productId c.amount s hnd with
    ⟨hacc, heq⟩ | ⟨hacc, l1, p, l2, hsplit, hid, hq0, h1, h2, heq⟩
  · have heq' : applyAdjust c s = s := heq
    rw [heq']
    refine ⟨rfl, hnn, ?_⟩
    have hcond : ¬(c.productId = pid ∧
        stockAccepted c.productId c.amount s.products = true) := by
      rintro ⟨-, hx⟩
      rw [hacc] at hx
      exact Bool.false_ne_true hx
    rw [if_neg hcond, Nat.add_zero]
  · have hps : (applyAdjust c s).products =
        l1 ++ { p with quantity := p.quantity + c.amount, lastUpdated := c.now }
          :: l2 := by
      show (handleAdjustStock c.txId c.now c.productId c.amount s).products = _
      rw [heq]
    have hts : (applyAdjust c s).transactions =
        addTransaction c.txId c.now
          { p with quantity := p.quantity + c.amount, lastUpdated := c.now }
          (if c.amount > 0 then TransactionType.increase
           else TransactionType.decrease) c.amount s.transactions := by
      show (handleAdjustStock c.txId c.now c.productId c.amount s).transactions
        = _
      rw [heq]
    refine ⟨?_, ?_, ?_⟩
    · rw [hps, hsplit]; simp
    · intro x hx
      rw [hps] at hx
      rcases List.mem_append.mp hx with hx1 | hx12
      · exact hnn x (by rw [hsplit]; exact List.mem_append_left _ hx1)
      · rcases List.mem_cons.mp hx12 with rfl | hx2
        · exact hq0
        · exact hnn x (by
            rw [hsplit]
            exact List.mem_append_right _ (List.mem_cons_of_mem _ hx2))
    · rw [hts, addTransaction, countAdjustTx, List.countP_cons]
      have htype : ((if c.amount > 0 then TransactionType.increase
          else TransactionType.decrease) = TransactionType.increase ∨
          (if c.amount > 0 then TransactionType.increase
          else TransactionType.decrease) = TransactionType.decrease) := by
        by_cases hc : c.amount > 0
        · exact Or.inl (if_pos hc)
        · exact Or.inr (if_neg hc)
      by_cases hpid : c.productId = pid
      · have hcond : (decide (p.id = pid ∧
            ((if c.amount > 0 then TransactionType.increase
              else TransactionType.decrease) = TransactionType.increase ∨
             (if c.amount > 0 then TransactionType.increase
              else TransactionType.decrease) = TransactionType.decrease)))
            = true := decide_eq_true ⟨hid.trans hpid, htype⟩
        rw [if_pos hcond, if_pos ⟨hpid, hacc⟩]
        rfl
      · have hpidne : p.id ≠ pid := fun he => hpid (hid.symm.trans he)
        have hcond : (decide (p.id = pid ∧
            ((if c.amount > 0 then TransactionType.increase
              else TransactionType.decrease) = TransactionType.increase ∨
             (if c.amount > 0 then TransactionType.increase
              else TransactionType.decrease) = TransactionType.decrease)))
            = false := by
          simp [hpidne]
        rw [if_neg (by rw [hcond]; exact Bool.false_ne_true),
          if_neg (fun hx => hpid hx.1), Nat.add_zero]
        rfl

/-! ### Claim theorems -/

/-- Claim C2: for every product of the table whose adjusted quantity
`q + d` would be negative, `handleAdjustStock` leaves the entire state
unchanged — the product keeps its `quantity` and `lastUpdated`, no
transaction is appended, and the ledger is identical (product ids are
unique per the data model). -/
theorem adjustStock_rejected_state_unchanged (txId now pid : String)
    (d : Int) (s : AppState) (p : Product)
    (hnd : (s.products.map Product.id).Nodup)
    (hp : p ∈ s.products) (hid : p.id = pid) (hq : p.quantity + d < 0) :
    handleAdjustStock txId now pid d s = s ∧
    (handleAdjustStock txId now pid d s).transactions = s.transactions ∧
    (handleAdjustStock txId now pid d s).transactions.length =
      s.transactions.length := by
  have hmain : handleAdjustStock txId now pid d s = s := by
    apply handleAdjustStock_unchanged
    intro x hxm hxe
    have hxp : x = p :=
      List.inj_on_of_nodup_map hnd hxm hp (hxe.trans hid.symm)
    rw [hxp]
    exact hq
  exact ⟨hmain, by rw [hmain], by rw [hmain]⟩

/-- Claim C2 witness: adjusting the sample product (quantity 5) by -10 is
rejected and leaves the state untouched. -/
theorem adjustStock_rejected_state_unchanged_witness :
    handleAdjustStock "t1" "2024-01-02T00:00:00.000Z" "p1" (-10) sampleState
      = sampleState :=
  (adjustStock_rejected_state_unchanged "t1" "2024-01-02T00:00:00.000Z" "p1"
    (-10) sampleState sampleProduct (by decide) (by decide) (by decide)
    (by decide)).1

/-- Claim C7: `handleAdjustStock` on a product id that occurs nowhere in the
product table is a silent no-op: no product is created, no transaction is
appended, the state is unchanged. -/
theorem adjustStock_unknown_id_noop (txId now pid : String) (d : Int)
    (s : AppState) (h : ∀ p ∈ s.products, p.id ≠ pid) :
    handleAdjustStock txId now pid d s = s :=
  handleAdjustStock_unchanged txId now pid d s
    (fun p hp hid => absurd hid (h p hp))

/-- Claim C7 witness: adjusting an id absent from the sample table changes
nothing. -/
theorem adjustStock_unknown_id_noop_witness :
    handleAdjustStock "t1" "2024-01-02T00:00:00.000Z" "p2" 3 sampleState
      = sampleState :=
  adjustStock_unknown_id_noop "t1" "2024-01-02T00:00:00.000Z" "p2" 3
    sampleState (by decide)

/-- Claim C3: for an existing product (its id occurring exactly once) with
`0 ≤ q + d`, `handleAdjustStock` replaces the product in place by the copy
with `quantity = q + d` and the new `lastUpdated`, leaves every other
product in position, and prepends exactly one transaction whose type is
`increase` iff `d > 0` (`decrease` covers `d ≤ 0`), whose amount is `|d|`,
and whose `productId`, `sku` and `productName` come from the updated
product. -/
theorem adjustStock_accepted_updates (txId now pid : String) (d : Int)
    (s : AppState) (l1 l2 : List Product) (p : Product)
    (hs : s.products = l1 ++ p :: l2)
    (h1 : ∀ q ∈ l1, q.id ≠ pid) (h2 : ∀ q ∈ l2, q.id ≠ pid)
    (hid : p.id = pid) (hq : 0 ≤ p.quantity + d) :
    (handleAdjustStock txId now pid d s).products =
      l1 ++ { p with quantity := p.quantity + d, lastUpdated := now } :: l2 ∧
    (handleAdjustStock txId now pid d s).transactions =
      { id := txId, productId := p.id, sku := p.sku, productName := p.name,
        type := if d > 0 then TransactionType.increase
                else TransactionType.decrease,
        amount := abs d, timestamp := now } :: s.transactions := by
  have haux := adjustStockAux_accepted pid d txId now l1 l2 p s.transactions
    h1 hid hq h2
  constructor
  · show (adjustStockAux pid d txId now s.products s.transactions).1 = _
    rw [hs, haux]
  · show (adjustStockAux pid d txId now s.products s.transactions).2 = _
    rw [hs, haux]
    rfl

/-- Claim C3 witness: adjusting the sample product (quantity 5) by +2 sets
quantity 7, refreshes `lastUpdated`, and prepends one `increase`
transaction of amount 2. -/
theorem adjustStock_accepted_updates_witness :
    (handleAdjustStock "t1" "2024-01-02T00:00:00.000Z" "p1" 2
        sampleState).products =
      [{ id := "p1", sku := "A1", name := "Widget", price := 10,
         quantity := 7, lastUpdated := "2024-01-02T00:00:00.000Z" }] ∧
    (handleAdjustStock "t1" "2024-01-02T00:00:00.000Z" "p1" 2
        sampleState).transactions =
      [{ id := "t1", productId := "p1", sku := "A1",
         productName := "Widget", type := TransactionType.increase,
         amount := 2, timestamp := "2024-01-02T00:00:00.000Z" }] := by
  have h := adjustStock_accepted_updates "t1" "2024-01-02T00:00:00.000Z"
    "p1" 2 sampleState [] [] sampleProduct rfl
    (by intro q hq; exact absurd hq (List.not_mem_nil q))
    (by intro q hq; exact absurd hq (List.not_mem_nil q))
    (by decide) (by decide)
  exact ⟨by rw [h.1]; rfl, by rw [h.2]; rfl⟩

/-- Claim C4: for valid input (non-empty `sku` and `name`, `price > 0`,
integer `quantity ≥ 0`), `handleRegisterProduct` appends exactly one
product with those field values, prepends exactly one `initial` transaction
whose amount equals the initial quantity and whose `productId` references
the new product, and touches nothing else. -/
theorem registerProduct_appends_product_and_initial_tx
    (pid txId now sku name : String) (price : Rat) (q : Int) (s : AppState)
    (hsku : sku ≠ "") (hname : name ≠ "") (hprice : 0 < price)
    (hq : 0 ≤ q) :
    (handleRegisterProduct pid txId now sku name price q s).products =
      s.products ++
        [{ id := pid, sku := sku, name := name, price := price,
           quantity := q, lastUpdated := now }] ∧
    (handleRegisterProduct pid txId now sku name price q s).transactions =
      { id := txId, productId := pid, sku := sku, productName := name,
        type := TransactionType.initial, amount := q, timestamp := now }
        :: s.transactions ∧
    (handleRegisterProduct pid txId now sku name price q s).users =
      s.users := by
  refine ⟨rfl, ?_, rfl⟩
  show addTransaction txId now _ TransactionType.initial q s.transactions = _
  rw [addTransaction, abs_of_nonneg hq]

/-- Claim C4 witness: registering a concrete valid product appends it and
its `initial` transaction of amount 3. -/
theorem registerProduct_appends_product_and_initial_tx_witness :
    (handleRegisterProduct "p9" "t9" "2024" "B2" "Gadget" 2 3
        AppState.empty).products =
      [{ id := "p9", sku := "B2", name := "Gadget", price := 2,
         quantity := 3, lastUpdated := "2024" }] ∧
    (handleRegisterProduct "p9" "t9" "2024" "B2" "Gadget" 2 3
        AppState.empty).transactions =
      [{ id := "t9", productId := "p9", sku := "B2",
         productName := "Gadget", type := TransactionType.initial,
         amount := 3, timestamp := "2024" }] := by
  have h := registerProduct_appends_product_and_initial_tx "p9" "t9" "2024"
    "B2" "Gadget" 2 3 AppState.empty (by decide) (by decide) (by norm_num)
    (by decide)
  exact ⟨by rw [h.1]; rfl, by rw [h.2.1]; rfl⟩

/-- Claim C10: every `handleAdjustStock` call, accepted or rejected, keeps
the users table, the length and order of the products list, and each
product's `id`, `sku`, `name` and `price`; every product whose id differs
from the target is unchanged entirely. -/
theorem adjustStock_frame (txId now pid : String) (d : Int)
    (s : AppState) :
    (handleAdjustStock txId now pid d s).users = s.users ∧
    (handleAdjustStock txId now pid d s).products.length =
      s.products.length ∧
    List.Forall₂
      (fun p q => q.id = p.id ∧ q.sku = p.sku ∧ q.name = p.name ∧
        q.price = p.price ∧ (p.id ≠ pid → q = p))
      s.products (handleAdjustStock txId now pid d s).products := by
  have h := adjustStockAux_forall2 pid d txId now s.products s.transactions
  have hf : List.Forall₂
      (fun p q => q.id = p.id ∧ q.sku = p.sku ∧ q.name = p.name ∧
        q.price = p.price ∧ (p.id ≠ pid → q = p))
      s.products (handleAdjustStock txId now pid d s).products :=
    h.imp fun a b hab =>
      ⟨hab.1, hab.2.1, hab.2.2.1, hab.2.2.2.1, hab.2.2.2.2.1⟩
  exact ⟨rfl, hf.length_eq.symm, hf⟩

/-- Claim C1: from any product table with non-negative quantities (and
unique ids, per the data model), any finite sequence of `handleAdjustStock`
calls keeps every quantity non-negative after every call, and the number of
`increase`/`decrease` ledger entries referencing a given product grows by
exactly the number of accepted calls on that product — rejected calls
contribute no entry. -/
theorem adjustStock_nonneg_and_accepted_count (s : AppState)
    (cs : List AdjustCall) (pid : String)
    (hnn : ∀ p ∈ s.products, 0 ≤ p.quantity)
    (hnd : (s.products.map Product.id).Nodup) :
    (∀ p ∈ (runAdjusts cs s).products, 0 ≤ p.quantity) ∧
    countAdjustTx pid (runAdjusts cs s).transactions =
      countAdjustTx pid s.transactions + acceptedCountFor pid s cs := by
  induction cs generalizing s with
  | nil => exact ⟨hnn, by simp [runAdjusts, acceptedCountFor]⟩
  | cons c cs ih =>
    obtain ⟨hmap, hnn', hcount⟩ := applyAdjust_facts c s pid hnd hnn
    have hnd' : ((applyAdjust c s).products.map Product.id).Nodup := by
      rw [hmap]; exact hnd
    obtain ⟨ih1, ih2⟩ := ih (applyAdjust c s) hnn' hnd'
    have hrun : runAdjusts (c :: cs) s = runAdjusts cs (applyAdjust c s) :=
      rfl
    refine ⟨by rw [hrun]; exact ih1, ?_⟩
    rw [hrun, ih2, hcount]
    show _ + _ + _ = _ + acceptedCountFor pid s (c :: cs)
    rw [acceptedCountFor, Nat.add_assoc]

/-- Claim C1 witness: from the sample state, an accepted +2 followed by a
rejected -10 leaves one `increase`/`decrease` entry for product p1,
matching the accepted-call count. -/
theorem adjustStock_nonneg_and_accepted_count_witness :
    countAdjustTx "p1" (runAdjusts sampleCalls sampleState).transactions =
      countAdjustTx "p1" sampleState.transactions +
        acceptedCountFor "p1" sampleState sampleCalls :=
  (adjustStock_nonneg_and_accepted_count sampleState sampleCalls "p1"
    (by decide) (by decide)).2

/-- Claim C9: starting from the empty state, after any valid sequence of
`registerProduct` and `adjustStock` operations (fresh product ids,
non-negative initial quantities), every product's quantity equals the
amount of its `initial` transaction plus the `increase` amounts minus the
`decrease` amounts recorded for it. -/
theorem ledger_reconstruction (ops : List Op)
    (hv : validOps AppState.empty ops = true) :
    ∀ p ∈ (runOps ops AppState.empty).products,
      p.quantity =
        balanceOf p.id (runOps ops AppState.empty).transactions := by
  have hempty : LedgerInv AppState.empty := by
    refine ⟨List.nodup_nil, ?_, ?_⟩
    · intro tx htx
      exact absurd htx (List.not_mem_nil tx)
    · intro p hp
      exact absurd hp (List.not_mem_nil p)
  have hinv := ledgerInv_validOps ops AppState.empty hempty hv
  exact fun p hp => (hinv.2.2 p hp).2

/-- Claim C9 witness: after registering p1 with quantity 3, an accepted +2
and a rejected -10, the final quantity 5 equals the ledger balance. -/
theorem ledger_reconstruction_witness :
    validOps AppState.empty sampleOps = true ∧
    sampleOpsProduct.quantity =
      balanceOf sampleOpsProduct.id
        (runOps sampleOps AppState.empty).transactions := by
  refine ⟨by decide, ?_⟩
  exact ledger_reconstruction sampleOps (by decide) sampleOpsProduct
    (by decide)

/-- Claim C5: over a 25-entry ledger with page size 10, pages 1-3 of
`currentTransactions` are the first 10, next 10 and last 5 entries;
requesting page 4 via the Next handler is clamped back to page 3 and yields
page 3's 5 entries; and every page number reachable through the pagination
controls stays in `[1, max 1 (ceil(total/10))]` (so 1 when the ledger is
empty).  The paging function is pure, hence deterministic and
side-effect-free. -/
theorem listTransactions_pagination (txs txs2 : List Transaction) (q : Nat)
    (h25 : txs.length = 25) (hq : ReachablePage txs2 q) :
    currentTransactions txs 1 = txs.take 10 ∧
    currentTransactions txs 2 = (txs.drop 10).take 10 ∧
    currentTransactions txs 3 = txs.drop 20 ∧
    (currentTransactions txs 1).length = 10 ∧
    (currentTransactions txs 2).length = 10 ∧
    (currentTransactions txs 3).length = 5 ∧
    totalPages txs = 3 ∧
    handleNextPage (totalPages txs) 3 = 3 ∧
    currentTransactions txs (handleNextPage (totalPages txs) 3) =
      currentTransactions txs 3 ∧
    1 ≤ q ∧ q ≤ max 1 (totalPages txs2) := by
  have htp : totalPages txs = 3 := by
    simp [totalPages, ITEMS_PER_PAGE, h25]
  have hp1 : currentTransactions txs 1 = txs.take 10 := by
    simp [currentTransactions, ITEMS_PER_PAGE]
  have hp2 : currentTransactions txs 2 = (txs.drop 10).take 10 := rfl
  have hp3 : currentTransactions txs 3 = txs.drop 20 := by
    show (txs.drop 20).take 10 = txs.drop 20
    apply List.take_of_length_le
    rw [List.length_drop, h25]
    decide
  have hnext : handleNextPage (totalPages txs) 3 = 3 := by
    rw [htp]
    decide
  have hb := reachablePage_bounds txs2 q hq
  refine ⟨hp1, hp2, hp3, ?_, ?_, ?_, htp, hnext, by rw [hnext], hb.1, hb.2⟩
  · rw [hp1, List.length_take, h25]
    decide
  · rw [hp2, List.length_take, List.length_drop, h25]
    decide
  · rw [hp3, List.length_drop, h25]

/-- Claim C5 witness: a concrete 25-entry ledger has 3 pages, page 3 holds
5 entries, and the Next handler at page 3 stays at page 3. -/
theorem listTransactions_pagination_witness :
    (List.replicate 25 sampleTx).length = 25 ∧
    (currentTransactions (List.replicate 25 sampleTx) 3).length = 5 ∧
    handleNextPage (totalPages (List.replicate 25 sampleTx)) 3 = 3 := by
  have h := listTransactions_pagination (List.replicate 25 sampleTx) [] 1
    (by decide) ReachablePage.start
  exact ⟨by decide, h.2.2.2.2.2.1, h.2.2.2.2.2.2.2.1⟩

/-- Claim C8 (theorem): the user-registration form rejects — leaving the
state unchanged and setting a non-empty error message — whenever the name
or email is empty or the email fails the spec's pattern (one non-whitespace
run before `@` and one after containing a `.`; the code's regex accepts
only such strings); in particular `"a@b.com"` is accepted, creating exactly
one user, and `"abc"` is rejected with no state change. -/
theorem registerUser_validation (newId now fullName email fn : String)
    (s : AppState)
    (hrej : fullName = "" ∨ email = "" ∨ ¬ SpecEmailPattern email)
    (hfn : fn ≠ "") :
    (handleUserFormSubmit newId now fullName email s).1 = s ∧
    (handleUserFormSubmit newId now fullName email s).2 ≠ "" ∧
    emailOk "a@b.com" = true ∧
    emailOk "abc" = false ∧
    (handleUserFormSubmit newId now fn "abc" s).1 = s ∧
    (handleUserFormSubmit newId now fn "a@b.com" s).1.users =
      s.users ++ [{ id := newId, fullName := fn, email := "a@b.com",
                    createdAt := now }] := by
  have hgood : emailOk "a@b.com" = true := by decide
  have hbad : emailOk "abc" = false := by decide
  have hmain : (handleUserFormSubmit newId now fullName email s).1 = s ∧
      (handleUserFormSubmit newId now fullName email s).2 ≠ "" := by
    by_cases hemp : fullName = "" ∨ email = ""
    · have hcond : (fullName = "" || email = "") = true := by
        rcases hemp with h | h <;> simp [h]
      constructor
      · simp [handleUserFormSubmit, hcond]
      · simp [handleUserFormSubmit, hcond]
    · push_neg at hemp
      have hok : emailOk email = false := by
        cases hbool : emailOk email with
        | false => rfl
        | true =>
          rcases hrej with h | h | h
          · exact absurd h hemp.1
          · exact absurd h hemp.2
          · exact absurd (emailOk_spec_pattern email hbool) h
      have hcond : (fullName = "" || email = "") = false := by
        simp [hemp.1, hemp.2]
      constructor
      · simp [handleUserFormSubmit, hcond, hok]
      · simp [handleUserFormSubmit, hcond, hok]
  have habc : (handleUserFormSubmit newId now fn "abc" s).1 = s := by
    have hcond : (fn = "" || ("abc" : String) = "") = false := by
      simp [hfn]
    simp [handleUserFormSubmit, hcond, hbad, if_neg hfn]
  have hacc : (handleUserFormSubmit newId now fn "a@b.com" s).1.users =
      s.users ++ [{ id := newId, fullName := fn, email := "a@b.com",
                    createdAt := now }] := by
    have hcond : (fn = "" || ("a@b.com" : String) = "") = false := by
      simp [hfn]
    simp [handleUserFormSubmit, hcond, hgood, handleRegisterUser,
      if_neg hfn]
  exact ⟨hmain.1, hmain.2, hgood, hbad, habc, hacc⟩

/-- Claim C8 witness: with an empty full name the form rejects and keeps
the state; with name Alice and email a@b.com it creates the user. -/
theorem registerUser_validation_witness :
    (handleUserFormSubmit "u1" "2024" "" "abc" AppState.empty).1 =
      AppState.empty ∧
    (handleUserFormSubmit "u1" "2024" "Alice" "a@b.com"
        AppState.empty).1.users =
      [{ id := "u1", fullName := "Alice", email := "a@b.com",
         createdAt := "2024" }] := by
  have h := registerUser_validation "u1" "2024" "" "abc" "Alice"
    AppState.empty (Or.inl rfl) (by decide)
  exact ⟨h.1, by rw [h.2.2.2.2.2]; rfl⟩

/-- Claim C6 counterexample: with the stored text `"0"` (valid JSON, parsed
without an exception to the number `0`) and the empty-array default used
for every collection key, `useLocalStorage`'s load does NOT fall back to
the default: the shape-incompatible parsed value is returned as-is, so the
claim's final clause is false at this input. -/
theorem load_shape_fallback_counterexample :
    loadStoredValue parseZeroOnly (some "0") (JsValue.arr []) ≠
      JsValue.arr [] := by
  have hv : loadStoredValue parseZeroOnly (some "0") (JsValue.arr []) =
      JsValue.num 0 := rfl
  rw [hv]
  intro h
  exact JsValue.noConfusion h

/-- Claim C6 (amended): `load` returns the caller-supplied default, and
never raises, when no data is stored under the key, when the stored text is
empty (JS truthiness), or when deserialization throws; but a stored text
that parses successfully is returned unchanged — no shape validation is
performed and no fallback to the default happens for incompatible shapes. -/
theorem load_default_and_no_shape_check
    (parseJson : String → Option JsValue) (d : JsValue) (it1 it2 : String)
    (v : JsValue) (h1 : parseJson it1 = none) (h2 : it2 ≠ "")
    (h3 : parseJson it2 = some v) :
    loadStoredValue parseJson none d = d ∧
    loadStoredValue parseJson (some "") d = d ∧
    loadStoredValue parseJson (some it1) d = d ∧
    loadStoredValue parseJson (some it2) d = v := by
  refine ⟨rfl, rfl, ?_, ?_⟩
  · by_cases he : it1 = "" <;> simp [loadStoredValue, he, h1]
  · simp [loadStoredValue, h2, h3]

/-- Claim C6 witness: concrete instances — a parse failure yields the
default, and the successfully parsed (shape-incompatible) number `0` is
returned in place of the empty-array default. -/
theorem load_default_and_no_shape_check_witness :
    loadStoredValue parseZeroOnly none (JsValue.arr []) = JsValue.arr [] ∧
    loadStoredValue parseZeroOnly (some "x") (JsValue.arr []) =
      JsValue.arr [] ∧
    loadStoredValue parseZeroOnly (some "0") (JsValue.arr []) =
      JsValue.num 0 := by
  have h := load_default_and_no_shape_check parseZeroOnly (JsValue.arr [])
    "x" "0" (JsValue.num 0) rfl (by decide) rfl
  exact ⟨h.1, h.2.2.1, h.2.2.2⟩

end Inventory
